import Mathlib

/-!
Verification of the 2R planar robotic arm inverse-kinematics program
(`MHK.py`).  The computational kernel is `inverse_kinematics(x, y, L1, L2)`:

    D = (x**2 + y**2 - L1**2 - L2**2) / (2 * L1 * L2)
    if abs(D) > 1: return None, None
    theta2 = np.arctan2(np.sqrt(1 - D**2), D)
    theta1 = np.arctan2(y, x) - np.arctan2(L2*np.sin(theta2), L1 + L2*np.cos(theta2))
    return np.degrees(theta1), np.degrees(theta2)

We embed the arithmetic over the real numbers.  `np.arctan2 y x` is the
angle of the planar vector `(x, y)`, which is exactly `Complex.arg (x + y*I)`
(both have range `(-π, π]` and send `(0, 0)` to `0`).  Python raises
`ZeroDivisionError` when the divisor `2*L1*L2` is zero (floats included),
which we model by an outer `Option`: `none` is the raised exception,
`some (none, none)` is the returned failure pair `(None, None)`, and
`some (some t1, some t2)` is a returned pair of angles in degrees.
-/

open Real

/-- `np.arctan2 y x`: the angle of the vector `(x, y)`, realised as the
argument of the complex number `x + y*I` (range `(-π, π]`, `arctan2 0 0 = 0`). -/
noncomputable def arctan2 (y x : ℝ) : ℝ := Complex.arg ((x : ℂ) + (y : ℂ) * Complex.I)

/-- `np.degrees`: radians to degrees. -/
noncomputable def degrees (r : ℝ) : ℝ := r * (180 / Real.pi)

/-- `np.radians`: degrees to radians (used by `plot_robot_arm`). -/
noncomputable def radians (d : ℝ) : ℝ := d * (Real.pi / 180)

/-- The intermediate value `D = (x**2 + y**2 - L1**2 - L2**2) / (2 * L1 * L2)`
computed on line 81 of `MHK.py`. -/
noncomputable def ikD (x y L1 L2 : ℝ) : ℝ :=
  (x ^ 2 + y ^ 2 - L1 ^ 2 - L2 ^ 2) / (2 * L1 * L2)

/-- `theta2 = np.arctan2(np.sqrt(1 - D**2), D)` (line 86, in radians). -/
noncomputable def ikTheta2 (x y L1 L2 : ℝ) : ℝ :=
  arctan2 (Real.sqrt (1 - ikD x y L1 L2 ^ 2)) (ikD x y L1 L2)

/-- `theta1 = np.arctan2(y, x) - np.arctan2(L2*np.sin(theta2), L1 + L2*np.cos(theta2))`
(line 87, in radians). -/
noncomputable def ikTheta1 (x y L1 L2 : ℝ) : ℝ :=
  arctan2 y x -
    arctan2 (L2 * Real.sin (ikTheta2 x y L1 L2)) (L1 + L2 * Real.cos (ikTheta2 x y L1 L2))

/-- `Window.inverse_kinematics` (lines 78-89 of `MHK.py`).
`none` models the `ZeroDivisionError` raised when the divisor `2*L1*L2` is
zero; `some (none, none)` models the returned pair `(None, None)`;
`some (some t1, some t2)` models a returned pair of angles in degrees. -/
noncomputable def inverse_kinematics (x y L1 L2 : ℝ) : Option (Option ℝ × Option ℝ) :=
  if 2 * L1 * L2 = 0 then none
  else if 1 < |ikD x y L1 L2| then some (none, none)
  else some (some (degrees (ikTheta1 x y L1 L2)), some (degrees (ikTheta2 x y L1 L2)))

/-- `Window.plot_robot_arm` (lines 91-111): the joint position and the
end-effector position it draws, computed from angles given in degrees. -/
noncomputable def plot_robot_arm (theta1 theta2 L1 L2 : ℝ) : (ℝ × ℝ) × (ℝ × ℝ) :=
  let theta1_rad := radians theta1
  let theta2_rad := radians theta2
  let joint1_x := L1 * Real.cos theta1_rad
  let joint1_y := L1 * Real.sin theta1_rad
  ((joint1_x, joint1_y),
   (joint1_x + L2 * Real.cos (theta1_rad + theta2_rad),
    joint1_y + L2 * Real.sin (theta1_rad + theta2_rad)))

/-- `update_plot` reads each slider as `slider.value() / 100.0`
(lines 62-65); slider values are integers. -/
noncomputable def slider_value (v : ℤ) : ℝ := (v : ℝ) / 100

/-! ### Basic structural lemmas about the solver -/

lemma ik_eq_none_iff (x y L1 L2 : ℝ) :
    inverse_kinematics x y L1 L2 = none ↔ 2 * L1 * L2 = 0 := by
  unfold inverse_kinematics
  split_ifs with h0 h1
  · simp [h0]
  · simp [h0]
  · simp [h0]

lemma two_L1_L2_eq_zero_iff (L1 L2 : ℝ) : 2 * L1 * L2 = 0 ↔ L1 = 0 ∨ L2 = 0 := by
  constructor
  · intro h
    rcases mul_eq_zero.mp h with h' | h'
    · rcases mul_eq_zero.mp h' with h'' | h''
      · norm_num at h''
      · exact Or.inl h''
    · exact Or.inr h'
  · rintro (h | h) <;> rw [h] <;> ring

lemma ik_eq_noSolution_iff {x y L1 L2 : ℝ} (h : 2 * L1 * L2 ≠ 0) :
    inverse_kinematics x y L1 L2 = some (none, none) ↔ 1 < |ikD x y L1 L2| := by
  unfold inverse_kinematics
  rw [if_neg h]
  split_ifs with h1
  · simp [h1]
  · simp [h1]

lemma ik_ok_branch {x y L1 L2 : ℝ} (h0 : 2 * L1 * L2 ≠ 0) (h1 : |ikD x y L1 L2| ≤ 1) :
    inverse_kinematics x y L1 L2 =
      some (some (degrees (ikTheta1 x y L1 L2)), some (degrees (ikTheta2 x y L1 L2))) := by
  unfold inverse_kinematics
  rw [if_neg h0, if_neg (not_lt.mpr h1)]

lemma ik_some_elim {x y L1 L2 t1 t2 : ℝ}
    (h : inverse_kinematics x y L1 L2 = some (some t1, some t2)) :
    2 * L1 * L2 ≠ 0 ∧ |ikD x y L1 L2| ≤ 1 ∧
      t1 = degrees (ikTheta1 x y L1 L2) ∧ t2 = degrees (ikTheta2 x y L1 L2) := by
  have h0 : 2 * L1 * L2 ≠ 0 := by
    intro hz
    rw [(ik_eq_none_iff x y L1 L2).mpr hz] at h
    exact Option.noConfusion h
  have h1 : |ikD x y L1 L2| ≤ 1 := by
    by_contra hgt
    rw [(ik_eq_noSolution_iff h0).mpr (not_le.mp hgt)] at h
    exact Option.noConfusion (congrArg Prod.fst (Option.some.inj h))
  rw [ik_ok_branch h0 h1] at h
  have h' := Option.some.inj h
  have h1' : some (degrees (ikTheta1 x y L1 L2)) = some t1 := congrArg Prod.fst h'
  have h2' : some (degrees (ikTheta2 x y L1 L2)) = some t2 := congrArg Prod.snd h'
  exact ⟨h0, h1, (Option.some.inj h1').symm, (Option.some.inj h2').symm⟩

/-! ### Reachability algebra: `|D| ≤ 1` is exactly the annulus condition -/

lemma absD_le_one {x y L1 L2 : ℝ} (hL1 : 0 < L1) (hL2 : 0 < L2)
    (hlo : |L1 - L2| ≤ Real.sqrt (x ^ 2 + y ^ 2))
    (hhi : Real.sqrt (x ^ 2 + y ^ 2) ≤ L1 + L2) :
    |ikD x y L1 L2| ≤ 1 := by
  have hr : (0 : ℝ) ≤ x ^ 2 + y ^ 2 := by positivity
  have h1 : x ^ 2 + y ^ 2 ≤ (L1 + L2) ^ 2 := by
    calc x ^ 2 + y ^ 2 = Real.sqrt (x ^ 2 + y ^ 2) ^ 2 := (Real.sq_sqrt hr).symm
      _ ≤ (L1 + L2) ^ 2 := by
          apply pow_le_pow_left₀ (Real.sqrt_nonneg _) hhi
  have h2 : (L1 - L2) ^ 2 ≤ x ^ 2 + y ^ 2 := by
    calc (L1 - L2) ^ 2 = |L1 - L2| ^ 2 := (sq_abs _).symm
      _ ≤ Real.sqrt (x ^ 2 + y ^ 2) ^ 2 := by
          apply pow_le_pow_left₀ (abs_nonneg _) hlo
      _ = x ^ 2 + y ^ 2 := Real.sq_sqrt hr
  have hpos : (0 : ℝ) < 2 * L1 * L2 := by positivity
  rw [ikD, abs_le]
  constructor
  · rw [le_div_iff₀ hpos]
    nlinarith [h2]
  · rw [div_le_one hpos]
    nlinarith [h1]

lemma one_lt_absD_of_far {x y L1 L2 : ℝ} (hL1 : 0 < L1) (hL2 : 0 < L2)
    (h : L1 + L2 < Real.sqrt (x ^ 2 + y ^ 2)) :
    1 < |ikD x y L1 L2| := by
  have hsq : (L1 + L2) ^ 2 < x ^ 2 + y ^ 2 := by
    have hr : (0 : ℝ) ≤ x ^ 2 + y ^ 2 := by positivity
    calc (L1 + L2) ^ 2 < Real.sqrt (x ^ 2 + y ^ 2) ^ 2 := by
          apply pow_lt_pow_left₀ h (by positivity)
          norm_num
      _ = x ^ 2 + y ^ 2 := Real.sq_sqrt hr
  have hpos : (0 : ℝ) < 2 * L1 * L2 := by positivity
  have hD : 1 < ikD x y L1 L2 := by
    rw [ikD, lt_div_iff₀ hpos]
    nlinarith [hsq]
  exact lt_of_lt_of_le hD (le_abs_self _)

lemma one_lt_absD_of_close {x y L1 L2 : ℝ} (hL1 : 0 < L1) (hL2 : 0 < L2)
    (h : Real.sqrt (x ^ 2 + y ^ 2) < |L1 - L2|) :
    1 < |ikD x y L1 L2| := by
  have hr : (0 : ℝ) ≤ x ^ 2 + y ^ 2 := by positivity
  have hsq : x ^ 2 + y ^ 2 < (L1 - L2) ^ 2 := by
    calc x ^ 2 + y ^ 2 = Real.sqrt (x ^ 2 + y ^ 2) ^ 2 := (Real.sq_sqrt hr).symm
      _ < |L1 - L2| ^ 2 := by
          apply pow_lt_pow_left₀ h (Real.sqrt_nonneg _)
          norm_num
      _ = (L1 - L2) ^ 2 := sq_abs _
  have hpos : (0 : ℝ) < 2 * L1 * L2 := by positivity
  have hD : ikD x y L1 L2 < -1 := by
    rw [ikD, div_lt_iff₀ hpos]
    nlinarith [hsq]
  calc (1 : ℝ) < -ikD x y L1 L2 := by linarith
    _ ≤ |ikD x y L1 L2| := neg_le_abs _

/-! ### Geometry of `arctan2` via `Complex.arg` -/

lemma mk_re (a b : ℝ) : ((a : ℂ) + (b : ℂ) * Complex.I).re = a := by simp

lemma mk_im (a b : ℝ) : ((a : ℂ) + (b : ℂ) * Complex.I).im = b := by simp

lemma cos_sin_arctan2_unit {a b : ℝ} (h : a ^ 2 + b ^ 2 = 1) :
    Real.cos (arctan2 b a) = a ∧ Real.sin (arctan2 b a) = b := by
  have habs : Complex.abs ((a : ℂ) + (b : ℂ) * Complex.I) = 1 := by
    rw [Complex.abs_apply, Complex.normSq_apply, mk_re, mk_im,
      show a * a + b * b = 1 by nlinarith [h]]
    exact Real.sqrt_one
  have hz : ((a : ℂ) + (b : ℂ) * Complex.I) ≠ 0 := by
    intro h0
    rw [h0] at habs
    simp at habs
  unfold arctan2
  refine ⟨?_, ?_⟩
  · rw [Complex.cos_arg hz, mk_re, habs, div_one]
  · rw [Complex.sin_arg, mk_im, habs, div_one]

/-- Rotating the vector `w` by the angle `phi - arg w` yields `|w|` at angle
`phi`; stated componentwise. -/
lemma rotate_to_arg (w : ℂ) (phi : ℝ) :
    Real.cos (phi - w.arg) * w.re - Real.sin (phi - w.arg) * w.im
        = Complex.abs w * Real.cos phi ∧
    Real.sin (phi - w.arg) * w.re + Real.cos (phi - w.arg) * w.im
        = Complex.abs w * Real.sin phi := by
  have key : Complex.exp (((phi - w.arg : ℝ) : ℂ) * Complex.I) * w
      = (Complex.abs w : ℂ) * Complex.exp ((phi : ℂ) * Complex.I) := by
    calc Complex.exp (((phi - w.arg : ℝ) : ℂ) * Complex.I) * w
        = Complex.exp (((phi - w.arg : ℝ) : ℂ) * Complex.I) *
            ((Complex.abs w : ℂ) * Complex.exp ((w.arg : ℂ) * Complex.I)) := by
          rw [Complex.abs_mul_exp_arg_mul_I]
      _ = (Complex.abs w : ℂ) *
            Complex.exp (((phi - w.arg : ℝ) : ℂ) * Complex.I + (w.arg : ℂ) * Complex.I) := by
          rw [Complex.exp_add]; ring
      _ = (Complex.abs w : ℂ) * Complex.exp ((phi : ℂ) * Complex.I) := by
          congr 2
          push_cast
          ring
  have hre := congrArg Complex.re key
  have him := congrArg Complex.im key
  simp only [Complex.mul_re, Complex.mul_im, Complex.exp_ofReal_mul_I_re,
    Complex.exp_ofReal_mul_I_im, Complex.ofReal_re, Complex.ofReal_im,
    zero_mul, mul_zero, sub_zero, zero_add, add_zero] at hre him
  exact ⟨hre, by linarith [him]⟩

lemma radians_degrees (r : ℝ) : radians (degrees r) = r := by
  unfold radians degrees
  field_simp

lemma sub_D_sq_nonneg {x y L1 L2 : ℝ} (hD : |ikD x y L1 L2| ≤ 1) :
    0 ≤ 1 - ikD x y L1 L2 ^ 2 := by
  nlinarith [sq_abs (ikD x y L1 L2), abs_nonneg (ikD x y L1 L2), hD]

/-- On the success path (`|D| ≤ 1`), the elbow angle `theta2` has cosine
exactly `D` and sine exactly the non-negative root `sqrt (1 - D^2)`. -/
lemma ikTheta2_cos_sin {x y L1 L2 : ℝ} (hD : |ikD x y L1 L2| ≤ 1) :
    Real.cos (ikTheta2 x y L1 L2) = ikD x y L1 L2 ∧
    Real.sin (ikTheta2 x y L1 L2) = Real.sqrt (1 - ikD x y L1 L2 ^ 2) := by
  have h1 : 0 ≤ 1 - ikD x y L1 L2 ^ 2 := sub_D_sq_nonneg hD
  have hunit : ikD x y L1 L2 ^ 2 + Real.sqrt (1 - ikD x y L1 L2 ^ 2) ^ 2 = 1 := by
    rw [Real.sq_sqrt h1]; ring
  unfold ikTheta2
  exact cos_sin_arctan2_unit hunit

/-- Forward kinematics inverts the solver: the radian angles computed by
`inverse_kinematics` place the end effector exactly at `(x, y)`. -/
lemma fk_round_trip {x y L1 L2 : ℝ} (hne : 2 * L1 * L2 ≠ 0) (hD : |ikD x y L1 L2| ≤ 1) :
    L1 * Real.cos (ikTheta1 x y L1 L2) +
        L2 * Real.cos (ikTheta1 x y L1 L2 + ikTheta2 x y L1 L2) = x ∧
    L1 * Real.sin (ikTheta1 x y L1 L2) +
        L2 * Real.sin (ikTheta1 x y L1 L2 + ikTheta2 x y L1 L2) = y := by
  obtain ⟨hc2, hs2⟩ := ikTheta2_cos_sin hD
  have h1 : 0 ≤ 1 - ikD x y L1 L2 ^ 2 := sub_D_sq_nonneg hD
  have hs2' : Real.sin (ikTheta2 x y L1 L2) ^ 2 = 1 - ikD x y L1 L2 ^ 2 := by
    rw [hs2, Real.sq_sqrt h1]
  have hDeq : 2 * L1 * L2 * ikD x y L1 L2 = x ^ 2 + y ^ 2 - L1 ^ 2 - L2 ^ 2 := by
    unfold ikD
    field_simp
  have habs : Complex.abs (((L1 + L2 * Real.cos (ikTheta2 x y L1 L2) : ℝ) : ℂ) +
        ((L2 * Real.sin (ikTheta2 x y L1 L2) : ℝ) : ℂ) * Complex.I)
      = Complex.abs ((x : ℂ) + (y : ℂ) * Complex.I) := by
    rw [Complex.abs_apply, Complex.abs_apply]
    congr 1
    rw [Complex.normSq_apply, Complex.normSq_apply, mk_re, mk_im, mk_re, mk_im, hc2]
    linear_combination hDeq + L2 ^ 2 * hs2'
  have hth1 : ikTheta1 x y L1 L2 =
      Complex.arg ((x : ℂ) + (y : ℂ) * Complex.I) -
        Complex.arg (((L1 + L2 * Real.cos (ikTheta2 x y L1 L2) : ℝ) : ℂ) +
          ((L2 * Real.sin (ikTheta2 x y L1 L2) : ℝ) : ℂ) * Complex.I) := rfl
  obtain ⟨hre1, him1⟩ := rotate_to_arg
    (((L1 + L2 * Real.cos (ikTheta2 x y L1 L2) : ℝ) : ℂ) +
      ((L2 * Real.sin (ikTheta2 x y L1 L2) : ℝ) : ℂ) * Complex.I)
    (Complex.arg ((x : ℂ) + (y : ℂ) * Complex.I))
  rw [mk_re, mk_im, ← hth1, habs, Complex.abs_mul_cos_arg, mk_re] at hre1
  rw [mk_re, mk_im, ← hth1, habs, Complex.abs_mul_sin_arg, mk_im] at him1
  constructor
  · rw [Real.cos_add]
    linear_combination hre1
  · rw [Real.sin_add]
    linear_combination him1

/-! ### Claims C1, C2, C3 -/

/-- Claim C1: for `L1, L2 > 0` and a target inside the reachable annulus
(`|L1 - L2| ≤ sqrt (x² + y²) ≤ L1 + L2`), `inverse_kinematics` returns a
pair of angles, not the `(None, None)` failure indicator. -/
theorem C1_reachable_returns_angles {x y L1 L2 : ℝ} (hL1 : 0 < L1) (hL2 : 0 < L2)
    (hlo : |L1 - L2| ≤ Real.sqrt (x ^ 2 + y ^ 2))
    (hhi : Real.sqrt (x ^ 2 + y ^ 2) ≤ L1 + L2) :
    ∃ t1 t2 : ℝ, inverse_kinematics x y L1 L2 = some (some t1, some t2) := by
  have hD := absD_le_one hL1 hL2 hlo hhi
  have hne : 2 * L1 * L2 ≠ 0 := by positivity
  exact ⟨_, _, ik_ok_branch hne hD⟩

/-- Witness for C1 at `x = 0, y = 0, L1 = L2 = 2`. -/
theorem C1_reachable_returns_angles_witness :
    |(2 : ℝ) - 2| ≤ Real.sqrt ((0 : ℝ) ^ 2 + 0 ^ 2) ∧
    Real.sqrt ((0 : ℝ) ^ 2 + 0 ^ 2) ≤ 2 + 2 ∧
    ∃ t1 t2 : ℝ, inverse_kinematics 0 0 2 2 = some (some t1, some t2) := by
  have hs : Real.sqrt ((0 : ℝ) ^ 2 + 0 ^ 2) = 0 := by
    rw [show ((0 : ℝ) ^ 2 + 0 ^ 2) = 0 by norm_num]
    exact Real.sqrt_zero
  have h1 : |(2 : ℝ) - 2| ≤ Real.sqrt ((0 : ℝ) ^ 2 + 0 ^ 2) := by rw [hs]; norm_num
  have h2 : Real.sqrt ((0 : ℝ) ^ 2 + 0 ^ 2) ≤ 2 + 2 := by rw [hs]; norm_num
  exact ⟨h1, h2, C1_reachable_returns_angles (by norm_num) (by norm_num) h1 h2⟩

/-- Claim C2: for `L1, L2 > 0`, a target outside the annulus yields the
`(None, None)` failure; the failure happens exactly when `|D| > 1`, and in
every other case the solver returns a pair of angles — `|D| > 1` is the only
failure path. -/
theorem C2_unreachable_no_solution {x y L1 L2 : ℝ} (hL1 : 0 < L1) (hL2 : 0 < L2) :
    ((L1 + L2 < Real.sqrt (x ^ 2 + y ^ 2) ∨ Real.sqrt (x ^ 2 + y ^ 2) < |L1 - L2|) →
        inverse_kinematics x y L1 L2 = some (none, none)) ∧
    (inverse_kinematics x y L1 L2 = some (none, none) ↔ 1 < |ikD x y L1 L2|) ∧
    (|ikD x y L1 L2| ≤ 1 →
        ∃ t1 t2 : ℝ, inverse_kinematics x y L1 L2 = some (some t1, some t2)) := by
  have hne : 2 * L1 * L2 ≠ 0 := by positivity
  refine ⟨?_, ik_eq_noSolution_iff hne, ?_⟩
  · rintro (h | h)
    · exact (ik_eq_noSolution_iff hne).mpr (one_lt_absD_of_far hL1 hL2 h)
    · exact (ik_eq_noSolution_iff hne).mpr (one_lt_absD_of_close hL1 hL2 h)
  · intro hD
    exact ⟨_, _, ik_ok_branch hne hD⟩

/-- Witness for C2 at `L1 = L2 = 1` (the spec's own example input is
`x = 5, y = 0, L1 = L2 = 1`, where the solver fails). -/
theorem C2_unreachable_no_solution_witness :
    ((1 + 1 < Real.sqrt ((5 : ℝ) ^ 2 + 0 ^ 2) ∨
        Real.sqrt ((5 : ℝ) ^ 2 + 0 ^ 2) < |1 - 1|) →
      inverse_kinematics 5 0 1 1 = some (none, none)) ∧
    (inverse_kinematics 5 0 1 1 = some (none, none) ↔ 1 < |ikD 5 0 1 1|) ∧
    (|ikD 5 0 1 1| ≤ 1 →
      ∃ t1 t2 : ℝ, inverse_kinematics 5 0 1 1 = some (some t1, some t2)) :=
  C2_unreachable_no_solution (by norm_num) (by norm_num)

/-- Claim C3: whenever the solver returns angles `(t1, t2)` (in degrees), the
end-effector position drawn by `plot_robot_arm` — the forward kinematics
`(L1·cos θ1 + L2·cos (θ1 + θ2), L1·sin θ1 + L2·sin (θ1 + θ2))` at the radian
values of the returned angles — is exactly the requested target `(x, y)`
(exact over the reals, hence within floating-point tolerance). -/
theorem C3_round_trip {x y L1 L2 t1 t2 : ℝ}
    (h : inverse_kinematics x y L1 L2 = some (some t1, some t2)) :
    (plot_robot_arm t1 t2 L1 L2).2 = (x, y) := by
  obtain ⟨hne, hD, ht1, ht2⟩ := ik_some_elim h
  obtain ⟨hx', hy'⟩ := fk_round_trip hne hD
  have hr1 : radians t1 = ikTheta1 x y L1 L2 := by rw [ht1, radians_degrees]
  have hr2 : radians t2 = ikTheta2 x y L1 L2 := by rw [ht2, radians_degrees]
  show (L1 * Real.cos (radians t1) + L2 * Real.cos (radians t1 + radians t2),
        L1 * Real.sin (radians t1) + L2 * Real.sin (radians t1 + radians t2)) = (x, y)
  rw [hr1, hr2, hx', hy']

/-! ### Claim C4: the elbow-up branch -/

lemma ikTheta2_nonneg (x y L1 L2 : ℝ) : 0 ≤ ikTheta2 x y L1 L2 := by
  unfold ikTheta2 arctan2
  rw [Complex.arg_nonneg_iff, mk_im]
  exact Real.sqrt_nonneg _

lemma ikTheta2_le_pi (x y L1 L2 : ℝ) : ikTheta2 x y L1 L2 ≤ π := by
  unfold ikTheta2 arctan2
  exact Complex.arg_le_pi _

/-- Claim C4: whenever the solver returns angles, the elbow angle `theta2`
(the second returned component, in degrees) lies in `[0, 180]`: the sine
component `sqrt (1 - D^2)` is the non-negative root, so the elbow-down
(negative) configuration is never produced. -/
theorem C4_elbow_up {x y L1 L2 t1 t2 : ℝ}
    (h : inverse_kinematics x y L1 L2 = some (some t1, some t2)) :
    0 ≤ t2 ∧ t2 ≤ 180 := by
  obtain ⟨hne, hD, ht1, ht2⟩ := ik_some_elim h
  have h0 : 0 ≤ ikTheta2 x y L1 L2 := ikTheta2_nonneg x y L1 L2
  have hpi : ikTheta2 x y L1 L2 ≤ π := ikTheta2_le_pi x y L1 L2
  subst ht2
  unfold degrees
  constructor
  · exact mul_nonneg h0 (by positivity)
  · calc ikTheta2 x y L1 L2 * (180 / π)
        ≤ π * (180 / π) := mul_le_mul_of_nonneg_right hpi (by positivity)
      _ = 180 := by field_simp

/-! ### Claim C5: the boundary input `x = y = 0`, `L1 = L2 = 2` -/

lemma arctan2_zero_zero : arctan2 0 0 = 0 := by
  unfold arctan2
  rw [show ((0 : ℝ) : ℂ) + ((0 : ℝ) : ℂ) * Complex.I = 0 by push_cast; ring]
  exact Complex.arg_zero

lemma ikD_0022 : ikD 0 0 2 2 = -1 := by unfold ikD; norm_num

lemma ikTheta2_0022 : ikTheta2 0 0 2 2 = π := by
  unfold ikTheta2
  rw [ikD_0022]
  rw [show (1 : ℝ) - (-1 : ℝ) ^ 2 = 0 by norm_num, Real.sqrt_zero]
  unfold arctan2
  rw [show ((-1 : ℝ) : ℂ) + ((0 : ℝ) : ℂ) * Complex.I = -1 by push_cast; ring]
  exact Complex.arg_neg_one

lemma ikTheta1_0022 : ikTheta1 0 0 2 2 = 0 := by
  unfold ikTheta1
  rw [ikTheta2_0022, Real.sin_pi, Real.cos_pi]
  rw [show (2 : ℝ) * 0 = 0 by ring, show (2 : ℝ) + 2 * (-1) = 0 by ring]
  rw [arctan2_zero_zero]
  ring

lemma degrees_zero : degrees 0 = 0 := by unfold degrees; ring

lemma degrees_pi : degrees π = 180 := by
  unfold degrees
  field_simp

lemma ik_0022 : inverse_kinematics 0 0 2 2 = some (some 0, some 180) := by
  have hD : |ikD 0 0 2 2| ≤ 1 := by
    rw [ikD_0022, abs_neg, abs_one]
  rw [ik_ok_branch (show 2 * (2 : ℝ) * 2 ≠ 0 by norm_num) hD,
    ikTheta1_0022, ikTheta2_0022, degrees_zero, degrees_pi]

/-- Claim C5: at `x = 0, y = 0, L1 = 2, L2 = 2` the solver computes `D = -1`
exactly and returns `theta1 = 0` and `theta2 = 180` degrees (the folded-back
arm); this relies on `arctan2 0 0 = 0`. -/
theorem C5_boundary_folded_arm :
    ikD 0 0 2 2 = -1 ∧ arctan2 0 0 = 0 ∧
    inverse_kinematics 0 0 2 2 = some (some 0, some 180) :=
  ⟨ikD_0022, arctan2_zero_zero, ik_0022⟩

/-- Witness for C3 at the boundary input `x = y = 0`, `L1 = L2 = 2`:
the drawn end effector is exactly the target `(0, 0)`. -/
theorem C3_round_trip_witness : (plot_robot_arm 0 180 2 2).2 = ((0 : ℝ), (0 : ℝ)) :=
  C3_round_trip ik_0022

/-- Witness for C4 at the boundary input: the returned `theta2 = 180` lies
in `[0, 180]`. -/
theorem C4_elbow_up_witness : (0 : ℝ) ≤ 180 ∧ (180 : ℝ) ≤ 180 :=
  C4_elbow_up ik_0022

/-! ### Claims C7, C8, C9, C10 -/

/-- Claim C7: the solver performs no validation of the link lengths.  The
divisor of `D` is `2*L1*L2`, so the `ZeroDivisionError` (modelled `none`)
happens exactly when `L1 = 0` or `L2 = 0`, and for `L1*L2 ≠ 0` the division
is well-defined and reached on every call (the solver returns `some _`). -/
theorem C7_division_by_zero (x y L1 L2 : ℝ) :
    (inverse_kinematics x y L1 L2 = none ↔ L1 = 0 ∨ L2 = 0) ∧
    (2 * L1 * L2 = 0 ↔ L1 = 0 ∨ L2 = 0) :=
  ⟨(ik_eq_none_iff x y L1 L2).trans (two_L1_L2_eq_zero_iff L1 L2),
   two_L1_L2_eq_zero_iff L1 L2⟩

/-- Claim C8: on the success path the guard has established `|D| ≤ 1`, hence
`1 - D² ≥ 0`; the argument of `sqrt` is non-negative, the square root is the
real root of `1 - D²`, and the elbow angle is a well-defined real angle with
cosine `D` and sine `sqrt (1 - D²)`. -/
theorem C8_sqrt_real_on_success {x y L1 L2 : ℝ} (h : |ikD x y L1 L2| ≤ 1) :
    0 ≤ 1 - ikD x y L1 L2 ^ 2 ∧
    Real.sqrt (1 - ikD x y L1 L2 ^ 2) ^ 2 = 1 - ikD x y L1 L2 ^ 2 ∧
    Real.cos (ikTheta2 x y L1 L2) = ikD x y L1 L2 ∧
    Real.sin (ikTheta2 x y L1 L2) = Real.sqrt (1 - ikD x y L1 L2 ^ 2) := by
  have h1 := sub_D_sq_nonneg h
  obtain ⟨hc, hs⟩ := ikTheta2_cos_sin h
  exact ⟨h1, Real.sq_sqrt h1, hc, hs⟩

lemma ikD_3022 : ikD 3 0 2 2 = 1 / 8 := by unfold ikD; norm_num

lemma absD_3022 : |ikD 3 0 2 2| ≤ 1 := by
  rw [ikD_3022, abs_of_nonneg (by norm_num : (0 : ℝ) ≤ 1 / 8)]
  norm_num

/-- Witness for C8 at `x = 3, y = 0, L1 = L2 = 2` (where `D = 1/8`). -/
theorem C8_sqrt_real_on_success_witness :
    0 ≤ 1 - ikD 3 0 2 2 ^ 2 ∧
    Real.sqrt (1 - ikD 3 0 2 2 ^ 2) ^ 2 = 1 - ikD 3 0 2 2 ^ 2 ∧
    Real.cos (ikTheta2 3 0 2 2) = ikD 3 0 2 2 ∧
    Real.sin (ikTheta2 3 0 2 2) = Real.sqrt (1 - ikD 3 0 2 2 ^ 2) :=
  C8_sqrt_real_on_success absD_3022

/-- Claim C9: a returned value is never half-absent: every non-exceptional
result is either a pair of present angles or exactly `(None, None)`, so
`theta1` is absent iff `theta2` is absent and the caller's test
`theta1 is not None and theta2 is not None` classifies every result. -/
theorem C9_failure_is_both_none {x y L1 L2 : ℝ} {r : Option ℝ × Option ℝ}
    (h : inverse_kinematics x y L1 L2 = some r) :
    (r.1 = none ↔ r.2 = none) ∧
    ((∃ t1 t2 : ℝ, r = (some t1, some t2)) ∨ r = (none, none)) := by
  by_cases hz : 2 * L1 * L2 = 0
  · rw [(ik_eq_none_iff x y L1 L2).mpr hz] at h
    exact Option.noConfusion h
  · by_cases hgt : 1 < |ikD x y L1 L2|
    · rw [(ik_eq_noSolution_iff hz).mpr hgt] at h
      obtain rfl : ((none, none) : Option ℝ × Option ℝ) = r := Option.some.inj h
      exact ⟨by simp, Or.inr rfl⟩
    · rw [ik_ok_branch hz (not_lt.mp hgt)] at h
      obtain rfl : (some (degrees (ikTheta1 x y L1 L2)),
          some (degrees (ikTheta2 x y L1 L2))) = r := Option.some.inj h
      exact ⟨by simp, Or.inl ⟨_, _, rfl⟩⟩

lemma ik_5011 : inverse_kinematics 5 0 1 1 = some (none, none) := by
  have hD : 1 < |ikD 5 0 1 1| := by
    rw [show ikD 5 0 1 1 = 23 / 2 by unfold ikD; norm_num,
      abs_of_nonneg (by norm_num : (0 : ℝ) ≤ 23 / 2)]
    norm_num
  exact (ik_eq_noSolution_iff (show 2 * (1 : ℝ) * 1 ≠ 0 by norm_num)).mpr hD

/-- Witness for C9 at the spec's unreachable example `x = 5, y = 0,
L1 = L2 = 1`, where the result is the pair `(None, None)`. -/
theorem C9_failure_is_both_none_witness :
    (((none, none) : Option ℝ × Option ℝ).1 = none ↔
      ((none, none) : Option ℝ × Option ℝ).2 = none) ∧
    ((∃ t1 t2 : ℝ, ((none, none) : Option ℝ × Option ℝ) = (some t1, some t2)) ∨
      ((none, none) : Option ℝ × Option ℝ) = (none, none)) :=
  C9_failure_is_both_none ik_5011

/-- Claim C10: every call issued by `update_plot` has `L1, L2 ∈ [0.01, 6]`
and `x, y ∈ [-6, 6]`, because the sliders are range-clamped to `[1, 600]`
(links) and `[-600, 600]` (target) and each value is divided by `100`; in
particular `L1*L2 > 0`, so the solver's division by zero (the `none` result)
is unreachable through the GUI path. -/
theorem C10_gui_calls_safe {vx vy vL1 vL2 : ℤ}
    (hx1 : -600 ≤ vx) (hx2 : vx ≤ 600) (hy1 : -600 ≤ vy) (hy2 : vy ≤ 600)
    (hL11 : 1 ≤ vL1) (hL12 : vL1 ≤ 600) (hL21 : 1 ≤ vL2) (hL22 : vL2 ≤ 600) :
    (1 / 100 ≤ slider_value vL1 ∧ slider_value vL1 ≤ 6) ∧
    (1 / 100 ≤ slider_value vL2 ∧ slider_value vL2 ≤ 6) ∧
    (-6 ≤ slider_value vx ∧ slider_value vx ≤ 6) ∧
    (-6 ≤ slider_value vy ∧ slider_value vy ≤ 6) ∧
    0 < slider_value vL1 * slider_value vL2 ∧
    inverse_kinematics (slider_value vx) (slider_value vy)
      (slider_value vL1) (slider_value vL2) ≠ none := by
  have bx1 : (-600 : ℝ) ≤ (vx : ℝ) := by exact_mod_cast hx1
  have bx2 : (vx : ℝ) ≤ 600 := by exact_mod_cast hx2
  have by1 : (-600 : ℝ) ≤ (vy : ℝ) := by exact_mod_cast hy1
  have by2 : (vy : ℝ) ≤ 600 := by exact_mod_cast hy2
  have bL11 : (1 : ℝ) ≤ (vL1 : ℝ) := by exact_mod_cast hL11
  have bL12 : (vL1 : ℝ) ≤ 600 := by exact_mod_cast hL12
  have bL21 : (1 : ℝ) ≤ (vL2 : ℝ) := by exact_mod_cast hL21
  have bL22 : (vL2 : ℝ) ≤ 600 := by exact_mod_cast hL22
  unfold slider_value
  have ha : (0 : ℝ) < (vL1 : ℝ) / 100 := by linarith
  have hb : (0 : ℝ) < (vL2 : ℝ) / 100 := by linarith
  have hprod : (0 : ℝ) < 2 * ((vL1 : ℝ) / 100) * ((vL2 : ℝ) / 100) :=
    mul_pos (mul_pos (by norm_num) ha) hb
  refine ⟨⟨by linarith, by linarith⟩, ⟨by linarith, by linarith⟩,
    ⟨by linarith, by linarith⟩, ⟨by linarith, by linarith⟩, mul_pos ha hb, ?_⟩
  intro hn
  exact absurd ((ik_eq_none_iff _ _ _ _).mp hn) (ne_of_gt hprod)

/-- Witness for C10 at the initial slider values (all four sliders start
at `200`). -/
theorem C10_gui_calls_safe_witness :
    (1 / 100 ≤ slider_value 200 ∧ slider_value 200 ≤ 6) ∧
    (1 / 100 ≤ slider_value 200 ∧ slider_value 200 ≤ 6) ∧
    (-6 ≤ slider_value 200 ∧ slider_value 200 ≤ 6) ∧
    (-6 ≤ slider_value 200 ∧ slider_value 200 ≤ 6) ∧
    0 < slider_value 200 * slider_value 200 ∧
    inverse_kinematics (slider_value 200) (slider_value 200)
      (slider_value 200) (slider_value 200) ≠ none :=
  C10_gui_calls_safe (by norm_num) (by norm_num) (by norm_num) (by norm_num)
    (by norm_num) (by norm_num) (by norm_num) (by norm_num)

/-! ### Claim C6: the worked example `x = 3, y = 0, L1 = L2 = 2` -/

/-- Half-angle form of the shoulder-offset term: for `0 ≤ θ < π` and `L > 0`,
`arctan2 (L·sin θ) (L + L·cos θ) = θ / 2`. -/
lemma arctan2_half {θ L : ℝ} (hL : 0 < L) (h0 : 0 ≤ θ) (hpi : θ < π) :
    arctan2 (L * Real.sin θ) (L + L * Real.cos θ) = θ / 2 := by
  have hc : 0 < Real.cos (θ / 2) :=
    Real.cos_pos_of_mem_Ioo ⟨by nlinarith [Real.pi_pos], by linarith⟩
  have hcos2 : Real.cos (θ / 2) ^ 2 = 1 / 2 + Real.cos θ / 2 := by
    have h := Real.cos_sq (θ / 2)
    rwa [show 2 * (θ / 2) = θ by ring] at h
  have hsin2 : Real.sin θ = 2 * Real.sin (θ / 2) * Real.cos (θ / 2) := by
    have h := Real.sin_two_mul (θ / 2)
    rwa [show 2 * (θ / 2) = θ by ring] at h
  have hz : ((L + L * Real.cos θ : ℝ) : ℂ) + ((L * Real.sin θ : ℝ) : ℂ) * Complex.I
      = ((2 * L * Real.cos (θ / 2) : ℝ) : ℂ) *
          ((Real.cos (θ / 2) : ℂ) + (Real.sin (θ / 2) : ℂ) * Complex.I) := by
    apply Complex.ext
    · rw [mk_re, Complex.mul_re, mk_re, mk_im, Complex.ofReal_re, Complex.ofReal_im]
      linear_combination (-2 : ℝ) * L * hcos2
    · rw [mk_im, Complex.mul_im, mk_re, mk_im, Complex.ofReal_re, Complex.ofReal_im]
      linear_combination L * hsin2
  unfold arctan2
  rw [hz, Complex.ofReal_cos, Complex.ofReal_sin]
  exact Complex.arg_mul_cos_add_sin_mul_I
    (mul_pos (mul_pos (by norm_num) hL) hc)
    ⟨by linarith [Real.pi_pos], by linarith [Real.pi_pos]⟩

lemma cos_sin_3022 :
    Real.cos (ikTheta2 3 0 2 2) = 1 / 8 ∧
    Real.sin (ikTheta2 3 0 2 2) = Real.sqrt (1 - (1 / 8 : ℝ) ^ 2) := by
  have h := ikTheta2_cos_sin absD_3022
  rwa [ikD_3022] at h

lemma theta2_3022_mem : 0 ≤ ikTheta2 3 0 2 2 ∧ ikTheta2 3 0 2 2 < π := by
  refine ⟨ikTheta2_nonneg 3 0 2 2, ?_⟩
  rcases lt_or_eq_of_le (ikTheta2_le_pi 3 0 2 2) with h | h
  · exact h
  · exfalso
    have hc := cos_sin_3022.1
    rw [h, Real.cos_pi] at hc
    norm_num at hc

lemma arctan2_zero_three : arctan2 0 3 = 0 := by
  unfold arctan2
  rw [show ((3 : ℝ) : ℂ) + ((0 : ℝ) : ℂ) * Complex.I = ((3 : ℝ) : ℂ) by push_cast; ring]
  exact Complex.arg_ofReal_of_nonneg (by norm_num)

/-- With `L1 = L2` the triangle is isosceles: the shoulder angle is exactly
minus half the elbow angle. -/
lemma ikTheta1_3022 : ikTheta1 3 0 2 2 = -(ikTheta2 3 0 2 2 / 2) := by
  unfold ikTheta1
  rw [arctan2_zero_three,
    arctan2_half (by norm_num : (0 : ℝ) < 2) theta2_3022_mem.1 theta2_3022_mem.2]
  ring

lemma sin_theta_shift_3022 : Real.sin (π / 2 - ikTheta2 3 0 2 2) = 1 / 8 := by
  rw [Real.sin_pi_div_two_sub, cos_sin_3022.1]

lemma sin_small_lt : Real.sin 0.1253 < 1 / 8 := by
  have h := Real.sin_bound (show |(0.1253 : ℝ)| ≤ 1 by
    rw [abs_of_nonneg (by norm_num : (0 : ℝ) ≤ 0.1253)]; norm_num)
  rw [abs_of_nonneg (by norm_num : (0 : ℝ) ≤ 0.1253)] at h
  have h2 := (abs_le.mp h).2
  have hnum : (0.1253 : ℝ) - 0.1253 ^ 3 / 6 + 0.1253 ^ 4 * (5 / 96) < 1 / 8 := by norm_num
  linarith [h2, hnum]

lemma sin_small_gt : 1 / 8 < Real.sin 0.1254 := by
  have h := Real.sin_bound (show |(0.1254 : ℝ)| ≤ 1 by
    rw [abs_of_nonneg (by norm_num : (0 : ℝ) ≤ 0.1254)]; norm_num)
  rw [abs_of_nonneg (by norm_num : (0 : ℝ) ≤ 0.1254)] at h
  have h1 := (abs_le.mp h).1
  have hnum : (1 : ℝ) / 8 < 0.1254 - 0.1254 ^ 3 / 6 - 0.1254 ^ 4 * (5 / 96) := by norm_num
  linarith [h1, hnum]

lemma s_bounds_3022 :
    0.1253 < π / 2 - ikTheta2 3 0 2 2 ∧ π / 2 - ikTheta2 3 0 2 2 < 0.1254 := by
  have hpi1 := Real.pi_gt_d6
  have hpi2 := Real.pi_lt_d6
  have hs_mem : π / 2 - ikTheta2 3 0 2 2 ∈ Set.Icc (-(π / 2)) (π / 2) := by
    constructor
    · have := ikTheta2_le_pi 3 0 2 2
      linarith
    · have := theta2_3022_mem.1
      linarith
  have ha_mem : (0.1253 : ℝ) ∈ Set.Icc (-(π / 2)) (π / 2) := by
    constructor <;> linarith
  have hb_mem : (0.1254 : ℝ) ∈ Set.Icc (-(π / 2)) (π / 2) := by
    constructor <;> linarith
  constructor
  · by_contra hle
    push_neg at hle
    have hmono := Real.strictMonoOn_sin.monotoneOn hs_mem ha_mem hle
    rw [sin_theta_shift_3022] at hmono
    linarith [sin_small_lt]
  · by_contra hge
    push_neg at hge
    have hmono := Real.strictMonoOn_sin.monotoneOn hb_mem hs_mem hge
    rw [sin_theta_shift_3022] at hmono
    linarith [sin_small_gt]

/-- Claim C6: at `x = 3, y = 0, L1 = 2, L2 = 2` the solver computes
`D = (9 - 4 - 4)/8 = 0.125` and returns `theta2 ≈ 82.82°` and
`theta1 ≈ -41.41°` (both within `0.01` of the quoted values). -/
theorem C6_worked_example :
    ikD 3 0 2 2 = 0.125 ∧
    ∃ t1 t2 : ℝ, inverse_kinematics 3 0 2 2 = some (some t1, some t2) ∧
      |t1 - (-41.41)| < 0.01 ∧ |t2 - 82.82| < 0.01 := by
  have hD8 : ikD 3 0 2 2 = 0.125 := by rw [ikD_3022]; norm_num
  have hok := ik_ok_branch (show 2 * (2 : ℝ) * 2 ≠ 0 by norm_num) absD_3022
  have hpi1 := Real.pi_gt_d6
  have hpi2 := Real.pi_lt_d6
  have hpip : (0 : ℝ) < π := Real.pi_pos
  obtain ⟨hs1, hs2⟩ := s_bounds_3022
  have hb1 : π / 2 - 0.1254 < ikTheta2 3 0 2 2 := by linarith
  have hb2 : ikTheta2 3 0 2 2 < π / 2 - 0.1253 := by linarith
  have ht2lo : 82.81 < degrees (ikTheta2 3 0 2 2) := by
    unfold degrees
    rw [← mul_div_assoc, lt_div_iff₀ hpip]
    linarith
  have ht2hi : degrees (ikTheta2 3 0 2 2) < 82.83 := by
    unfold degrees
    rw [← mul_div_assoc, div_lt_iff₀ hpip]
    linarith
  have ht1 : degrees (ikTheta1 3 0 2 2) = -(degrees (ikTheta2 3 0 2 2)) / 2 := by
    rw [ikTheta1_3022]
    unfold degrees
    ring
  refine ⟨hD8, degrees (ikTheta1 3 0 2 2), degrees (ikTheta2 3 0 2 2), hok, ?_, ?_⟩
  · rw [ht1, abs_lt]
    constructor <;> linarith
  · rw [abs_lt]
    constructor <;> linarith
